import Mathlib

/-!
Verification of the client-side reporting/aggregation pipeline of the
Logos Vision CRM repository (`Reports.processedData` in
`src/src/components/ProjectList.tsx`) and of the filter-predicate engine
surface (`applyFilterLogic`).

Modelling conventions (shallow embedding of the TypeScript source):
* A record field value is a `Value`: a string, an integer, `null` or
  `undefined`.  The domain values exercised by the pipeline (status and id
  strings, ISO date strings, integral amounts) are covered exactly;
  floating-point amounts are modelled by rationals.
* JavaScript numbers produced by the metric stage are `JVal`: a rational,
  `NaN`, or a string (string results arise from `+` on a string operand).
* `Date` values are modelled timezone-free: an ISO `YYYY-MM[-DD]` string
  parses to its calendar date, every other value is an invalid date
  (`none`).  Comparisons on invalid dates are false, exactly as a `NaN`
  timestamp comparison is in JavaScript.
* Plain-object key iteration (`Object.values`) follows the ECMAScript
  own-property order: integer-index-like keys first in ascending numeric
  order, then the remaining keys in insertion order.
* `Array.prototype.sort` is modelled by a stable insertion sort driven by
  the source's comparator; `localeCompare` is modelled as code-point
  string comparison.
-/

/-- A JavaScript record-field value as the pipeline consumes it. -/
inductive Value where
  | str (s : String)
  | num (n : Int)
  | null
  | undefined
deriving DecidableEq, Repr

/-- JavaScript truthiness of a `Value` (`if (otherFilters[key])`,
`if (!groupBy)` and the like). -/
def truthy : Value → Bool
  | .str s => s ≠ ""
  | .num n => n ≠ 0
  | .null => false
  | .undefined => false

/-- `String(v)` — the coercion used for template literals and property
keys. -/
def valueToStringJS : Value → String
  | .str s => s
  | .num n => toString n
  | .null => "null"
  | .undefined => "undefined"

/-- A domain record: a field map (a missing field reads as `undefined`)
plus the length of its nested `tasks` array (the only use the pipeline
makes of `tasks` is `tasks.length`). -/
structure Rec where
  fields : List (String × Value)
  tasksLen : Nat := 0
deriving DecidableEq, Repr

/-- `item[key]` — property read, `undefined` when absent. -/
def getField (r : Rec) (k : String) : Value :=
  match r.fields.find? (fun kv => kv.1 = k) with
  | some kv => kv.2
  | none => .undefined

/-- A calendar date, as produced by parsing an ISO date-only string. -/
structure SimpleDate where
  year : Int
  month : Nat
  day : Nat
deriving DecidableEq, Repr

def isLeapYear (y : Int) : Bool :=
  (y % 4 == 0 && y % 100 != 0) || y % 400 == 0

def daysInMonth (y : Int) (m : Nat) : Nat :=
  if m = 2 then (if isLeapYear y then 29 else 28)
  else if m = 4 ∨ m = 6 ∨ m = 9 ∨ m = 11 then 30
  else 31

/-- The numeric value of a decimal digit character. -/
def digitVal (c : Char) : Option Nat :=
  if '0' ≤ c ∧ c ≤ '9' then some (c.toNat - '0'.toNat) else none

/-- Read a nonempty all-digit character list as a natural number. -/
def digitsToNat? (cs : List Char) : Option Nat :=
  if cs = [] then none
  else
    cs.foldl (fun acc c =>
      match acc, digitVal c with
      | some n, some d => some (n * 10 + d)
      | _, _ => none) (some 0)

/-- Split a character list on the `'-'` separator (the shape test of the
ISO date profile). -/
def splitOnDash : List Char → List (List Char)
  | [] => [[]]
  | c :: cs =>
      match splitOnDash cs with
      | [] => [[]]
      | g :: gs => if c = '-' then [] :: g :: gs else (c :: g) :: gs

/-- Parse one ISO date component triple (`YYYY`, `MM`, `DD` digit
groups). -/
def parseYMD (ys ms ds : List Char) : Option SimpleDate :=
  match digitsToNat? ys, digitsToNat? ms, digitsToNat? ds with
  | some y, some m, some d =>
      if ys.length = 4 ∧ ms.length = 2 ∧ ds.length = 2 ∧
         1 ≤ m ∧ m ≤ 12 ∧ 1 ≤ d ∧ d ≤ daysInMonth (y : Int) m
      then some ⟨(y : Int), m, d⟩ else none
  | _, _, _ => none

/-- `new Date(string)` for the ISO date-only profile (`YYYY`,
`YYYY-MM`, `YYYY-MM-DD`); every other string is an invalid date.  The
engine-specific legacy formats and datetime forms are outside the
model. -/
def parseDate (s : String) : Option SimpleDate :=
  match splitOnDash s.toList with
  | [y] => parseYMD y ('0' :: ['1']) ('0' :: ['1'])
  | [y, m] => parseYMD y m ('0' :: ['1'])
  | [y, m, d] => parseYMD y m d
  | _ => none

/-- `new Date(value)` for a record-field value.  Date-valued fields in
this repository are ISO date strings (they come from
`<input type="date">`); every non-string value is modelled as an invalid
date. -/
def parseDateValue : Value → Option SimpleDate
  | .str s => parseDate s
  | _ => none

/-- A linear encoding of a date that orders dates chronologically
(`month*100 + day` stays below `10000`). -/
def dateCode (d : SimpleDate) : Int :=
  d.year * 10000 + (d.month : Int) * 100 + (d.day : Int)

/-- `new Date(a) >= new Date(b)`: timestamp comparison, false when
either date is invalid (`NaN` comparison). -/
def jsDateGE : Option SimpleDate → Option SimpleDate → Bool
  | some a, some b => dateCode b ≤ dateCode a
  | _, _ => false

/-- `new Date(a) <= new Date(b)`: timestamp comparison, false when
either date is invalid. -/
def jsDateLE : Option SimpleDate → Option SimpleDate → Bool
  | some a, some b => dateCode a ≤ dateCode b
  | _, _ => false

/-- The `filters` state object of the Reports component: a
`dateRange: {start, end}` (empty string = unset) plus the remaining
per-field equality entries (keys assumed distinct, as in a JS object). -/
structure Filters where
  dateStart : String
  dateEnd : String
  other : List (String × Value)
deriving DecidableEq, Repr

/-- The no-constraint filter state `{ dateRange: { start: '', end: '' } }`. -/
def noFilters : Filters := ⟨"", "", []⟩

/-- The filter-stage predicate (`baseData.filter(item => ...)` body):
date-range bounds ANDed with exact-match equality entries; an unset
bound, a falsy entry value or the `'all'` sentinel impose no
constraint. -/
def recPasses (dk : String) (f : Filters) (r : Rec) : Bool :=
  (if f.dateStart ≠ "" && dk ≠ "" then
      jsDateGE (parseDateValue (getField r dk)) (parseDate f.dateStart)
    else true) &&
  (if f.dateEnd ≠ "" && dk ≠ "" then
      jsDateLE (parseDateValue (getField r dk)) (parseDate f.dateEnd)
    else true) &&
  f.other.all (fun kv =>
    if truthy kv.2 && kv.2 ≠ .str "all" then getField r kv.1 == kv.2 else true)

/-- Stage 1 of `processedData`: `filteredData`. -/
def filterStage (dk : String) (f : Filters) (base : List Rec) : List Rec :=
  base.filter (recPasses dk f)

/-- `String(n).padStart(2, '0')`. -/
def padStart2 (s : String) : String :=
  if 2 ≤ s.length then s else String.mk (List.replicate (2 - s.length) '0') ++ s

/-- The month bucket key:
`` `${date.getFullYear()}-${String(date.getMonth() + 1).padStart(2, '0')}` ``.
On an invalid date both components render as `"NaN"`. -/
def monthKey : Option SimpleDate → String
  | some d => toString d.year ++ "-" ++ padStart2 (toString d.month)
  | none => "NaN-NaN"

/-- The group key of a record: the raw `item[groupBy]` value, except that
`groupBy === 'month'` derives a `YYYY-MM` string from the designated date
field. -/
def groupKey (gb dk : String) (r : Rec) : Value :=
  if gb = "month" then .str (monthKey (parseDateValue (getField r dk)))
  else getField r gb

/-- `key === undefined || key === null` — the group stage's drop test. -/
def keyIsNullish (v : Value) : Bool :=
  v == .undefined || v == .null

/-- One entry of the `grouped` accumulator object: the string property
key, the `name` stored at creation (the first-seen raw key value) and the
pushed items in order. -/
structure Bucket where
  keyStr : String
  name : Value
  items : List Rec
deriving DecidableEq, Repr

/-- `acc[key].items.push(item)`, creating `{ name: key, items: [] }`
first when the property is absent; the accumulator is kept in property
insertion order. -/
def insertItem (key : Value) (r : Rec) : List Bucket → List Bucket
  | [] => [⟨valueToStringJS key, key, [r]⟩]
  | b :: bs =>
      if b.keyStr = valueToStringJS key then
        ⟨b.keyStr, b.name, b.items ++ [r]⟩ :: bs
      else b :: insertItem key r bs

/-- One step of the grouping `reduce`: skip the record when its key is
`null`/`undefined`, else push it into its bucket. -/
def groupStep (gb dk : String) (acc : List Bucket) (r : Rec) : List Bucket :=
  if keyIsNullish (groupKey gb dk r) then acc else insertItem (groupKey gb dk r) r acc

/-- Stage 2 of `processedData`: `filteredData.reduce(...)` building the
`grouped` object.  Records whose key is `null`/`undefined` are skipped. -/
def groupStage (gb dk : String) (items : List Rec) : List Bucket :=
  items.foldl (groupStep gb dk) []

/-- `n` when `s` is an integer-index-like property key (the canonical
decimal string of an `n < 2^53`), else `none`. -/
def integerIndexVal (s : String) : Option Nat :=
  match digitsToNat? s.toList with
  | some n => if toString n = s ∧ n < 2 ^ 53 then some n else none
  | none => none

/-- Insert `a` before the first element it is strictly below; with a
strict comparison this is the inner step of a stable insertion sort. -/
def insertBefore {α : Type} (lt : α → α → Bool) (a : α) : List α → List α
  | [] => [a]
  | b :: l => if lt a b then a :: b :: l else b :: insertBefore lt a l

/-- Stable insertion sort: elements the comparison ties keep their
relative order (models `Array.prototype.sort`, which is stable). -/
def stableSortBy {α : Type} (lt : α → α → Bool) (l : List α) : List α :=
  l.foldl (fun acc a => insertBefore lt a acc) []

/-- Ascending numeric order on integer-index-like bucket keys. -/
def bucketIdxLt (a b : Bucket) : Bool :=
  (integerIndexVal a.keyStr).getD 0 < (integerIndexVal b.keyStr).getD 0

/-- `Object.values(grouped)` in ECMAScript own-property order:
integer-index-like keys first, ascending numerically, then the remaining
keys in insertion order. -/
def esObjectOrder (bs : List Bucket) : List Bucket :=
  stableSortBy bucketIdxLt (bs.filter (fun b => (integerIndexVal b.keyStr).isSome))
    ++ bs.filter (fun b => (integerIndexVal b.keyStr).isNone)

/-- A JavaScript number-or-string result of the metric stage. -/
inductive JVal where
  | jnum (q : ℚ)
  | jnan
  | jstr (s : String)
deriving DecidableEq, Repr

/-- `String(q)` for a metric-stage number; the decimal rendering of a
non-integral rational is approximated (no claim depends on it). -/
def ratToStringJS (q : ℚ) : String :=
  if q.den = 1 then toString q.num
  else toString q.num ++ "/" ++ toString q.den

/-- `sum + v` — JavaScript `+` with a number-or-string accumulator and a
record-field value: `null` coerces to 0, `undefined` yields `NaN`, a
string operand concatenates. -/
def jsAdd : JVal → Value → JVal
  | .jnum a, .num n => .jnum (a + (n : ℚ))
  | .jnum a, .null => .jnum a
  | .jnum _, .undefined => .jnan
  | .jnum a, .str t => .jstr (ratToStringJS a ++ t)
  | .jnan, .str t => .jstr ("NaN" ++ t)
  | .jnan, _ => .jnan
  | .jstr u, v => .jstr (u ++ valueToStringJS v)

/-- `Number(string)`, modelled for plain digit strings (and the empty
string, which coerces to 0); everything else is `none` = `NaN`.  Only the
string-amount corner of `avgAmount` reaches this. -/
def strToNumJS (s : String) : Option ℚ :=
  if s = "" then some 0 else (s.toNat?).map (fun n => (n : ℚ))

/-- `x / n` for the average metric (`n` is a bucket size, so nonzero
whenever the division is reached). -/
def jsDivNat : JVal → Nat → JVal
  | .jnum a, n => if n = 0 then .jnan else .jnum (a / (n : ℚ))
  | .jnan, _ => .jnan
  | .jstr u, n =>
      match strToNumJS u with
      | some a => if n = 0 then .jnan else .jnum (a / (n : ℚ))
      | none => .jnan

/-- `group.items.reduce((sum, i) => sum + i.amount, 0)`. -/
def sumAmounts (items : List Rec) : JVal :=
  items.foldl (fun s i => jsAdd s (getField i "amount")) (.jnum 0)

/-- Stage 3 of `processedData`: the `switch (metric)` reducing a bucket's
items to one value; an unrecognized metric falls through to `count`. -/
def metricValue (metric : String) (items : List Rec) : JVal :=
  if metric = "count" then .jnum (items.length : ℚ)
  else if metric = "totalAmount" then sumAmounts items
  else if metric = "avgAmount" then
    if 0 < items.length then jsDivNat (sumAmounts items) items.length
    else .jnum 0
  else if metric = "taskCount" then
    .jnum (items.foldl (fun s i => s + (i.tasksLen : ℚ)) 0)
  else .jnum (items.length : ℚ)

/-- `table.find(x => x.id === v)?.name || v` — id→display-name lookup
with fallback to the raw key (also on an empty, hence falsy, name). -/
def lookupName (table : List (String × String)) (v : Value) : Value :=
  match v with
  | .str s =>
      match table.find? (fun e => e.1 = s) with
      | some e => if e.2 = "" then v else .str e.2
      | none => v
  | _ => v

/-- The short month names of the modelled `'default'` locale (en-US). -/
def monthShortName : Nat → String
  | 1 => "Jan" | 2 => "Feb" | 3 => "Mar" | 4 => "Apr"
  | 5 => "May" | 6 => "Jun" | 7 => "Jul" | 8 => "Aug"
  | 9 => "Sep" | 10 => "Oct" | 11 => "Nov" | 12 => "Dec"
  | _ => ""

/-- `` new Date(`${name}-02`).toLocaleString('default', { month: 'short',
year: 'numeric' }) `` — the month-bucket display label; an invalid date
renders as `"Invalid Date"`. -/
def monthLabel (s : String) : String :=
  match parseDate (s ++ "-02") with
  | some d => monthShortName d.month ++ " " ++ toString d.year
  | none => "Invalid Date"

/-- Stage 4 of `processedData`: the sequential `name` rewrites for
`clientId`, `createdById`/`assignedToId` and `month` group keys. -/
def labelName (gb : String) (clients tms : List (String × String)) (v : Value) : Value :=
  let n1 := if gb = "clientId" then lookupName clients v else v
  let n2 := if gb = "createdById" ∨ gb = "assignedToId" then lookupName tms n1 else n1
  if gb = "month" then .str (monthLabel (valueToStringJS n2)) else n2

/-- One `{ name, value }` result point. -/
structure ReportPoint where
  name : Value
  value : JVal
deriving DecidableEq, Repr

/-- Code-point comparison of character lists — the model of
`localeCompare`'s sign on the strings this repository compares. -/
def cmpCharList : List Char → List Char → Ordering
  | [], [] => .eq
  | [], _ :: _ => .lt
  | _ :: _, [] => .gt
  | a :: as, b :: bs =>
      if a.toNat < b.toNat then .lt
      else if b.toNat < a.toNat then .gt
      else cmpCharList as bs

/-- The modelled `a.localeCompare(b)` sign. -/
def strCmp (s t : String) : Ordering := cmpCharList s.toList t.toList

/-- The sort comparator
`(a, b) => (typeof a.name === 'string' && typeof b.name === 'string') ?
a.name.localeCompare(b.name) : 0`, as a strict "comes before" test. -/
def pointLt (a b : ReportPoint) : Bool :=
  match a.name, b.name with
  | .str s, .str t => strCmp s t == .lt
  | _, _ => false

/-- Stages 3–4 over the grouped buckets, in `Object.values` order — the
result list before the final sort. -/
def rawPoints (gb metric : String) (clients tms : List (String × String))
    (bs : List Bucket) : List ReportPoint :=
  (esObjectOrder bs).map (fun b =>
    ⟨labelName gb clients tms b.name, metricValue metric b.items⟩)

/-- The four reportable data sources. -/
inductive DataSource where
  | donations
  | activities
  | projects
  | cases
deriving DecidableEq, Repr

/-- The per-data-source designated date field (`dateKey` in the
source's `switch (dataSource)`). -/
def dateKeyFor : DataSource → String
  | .donations => "donationDate"
  | .activities => "activityDate"
  | .projects => "startDate"
  | .cases => "createdAt"

/-- The whole compute function on an explicit date key: filter, then the
`if (!groupBy) return []` guard, then group, metric/label, and the final
stable sort by the string comparator. -/
def computeReport (base : List Rec) (dk : String) (f : Filters)
    (gb metric : String) (clients tms : List (String × String)) : List ReportPoint :=
  if gb = "" then []
  else stableSortBy pointLt
    (rawPoints gb metric clients tms (groupStage gb dk (filterStage dk f base)))

/-- `Reports.processedData` in database mode: the pipeline applied to the
chosen data source's collection and designated date field. -/
def processedData (ds : DataSource) (base : List Rec) (f : Filters)
    (gb metric : String) (clients tms : List (String × String)) : List ReportPoint :=
  computeReport base (dateKeyFor ds) f gb metric clients tms

/-! ## Filter predicate engine

The implementation module `./filters/filterLogic` is not among the
repository files provided; only its import and call site in
`src/components/ProjectList.tsx` are.  The definitions below are
modelled from the spec (section 4.1). -/

/-- Modelled from the spec: the condition operator enum of
`FilterCondition` (the implementation file `filterLogic.ts` is missing;
spec section 3/4.1). -/
inductive FilterOp where
  | equals
  | notEquals
  | contains
  | greaterThan
  | lessThan
  | before
  | after
  | isEmpty
  | isNotEmpty
deriving DecidableEq, Repr

/-- Modelled from the spec: a leaf filter condition
`{ field, operator, value }`. -/
structure FilterCondition where
  field : String
  op : FilterOp
  value : Value
deriving Repr

/-- Modelled from the spec: the AND/OR combinator of a filter group. -/
inductive Combinator where
  | and
  | or
deriving DecidableEq, Repr

/-- Modelled from the spec: the recursive boolean expression tree — a
child of a group is a condition leaf or a nested group. -/
inductive FilterNode where
  | cond (c : FilterCondition)
  | group (comb : Combinator) (children : List FilterNode)

/-- Modelled from the spec: a `FilterGroup`
`{ combinator, conditions }`. -/
structure FilterGroup where
  combinator : Combinator
  conditions : List FilterNode

/-- Modelled from the spec: leaf evaluation per operator (section 4.1):
equality after normalization (dates compared as instants), case-insensitive
substring for `contains`, numeric-or-date comparison for
`greaterThan`/`lessThan`, date-only comparison for `before`/`after`,
absent/null/empty-string test for `isEmpty`, all failing closed. -/
def evalCondition (r : Rec) (c : FilterCondition) : Bool :=
  let fv := getField r c.field
  match c.op with
  | .equals =>
      match parseDateValue fv, parseDateValue c.value with
      | some a, some b => dateCode a = dateCode b
      | _, _ => fv == c.value
  | .notEquals =>
      match parseDateValue fv, parseDateValue c.value with
      | some a, some b => dateCode a ≠ dateCode b
      | _, _ => fv != c.value
  | .contains =>
      decide (List.IsInfix ((valueToStringJS c.value).toLower.toList)
        ((valueToStringJS fv).toLower.toList))
  | .greaterThan =>
      match fv, c.value with
      | .num a, .num b => b < a
      | _, _ => jsDateGE (parseDateValue fv) (parseDateValue c.value) &&
          !(parseDateValue fv == parseDateValue c.value)
  | .lessThan =>
      match fv, c.value with
      | .num a, .num b => a < b
      | _, _ => jsDateLE (parseDateValue fv) (parseDateValue c.value) &&
          !(parseDateValue fv == parseDateValue c.value)
  | .before =>
      match parseDateValue fv, parseDateValue c.value with
      | some a, some b => dateCode a < dateCode b
      | _, _ => false
  | .after =>
      match parseDateValue fv, parseDateValue c.value with
      | some a, some b => dateCode b < dateCode a
      | _, _ => false
  | .isEmpty => fv == .undefined || fv == .null || fv == .str ""
  | .isNotEmpty => !(fv == .undefined || fv == .null || fv == .str "")

mutual

/-- Modelled from the spec: recursive evaluation of a filter tree node. -/
def evalNode (r : Rec) : FilterNode → Bool
  | .cond c => evalCondition r c
  | .group .and cs => evalAnd r cs
  | .group .or cs => evalOr r cs

/-- Modelled from the spec: AND over children, short-circuiting; an empty
child list is vacuously true. -/
def evalAnd (r : Rec) : List FilterNode → Bool
  | [] => true
  | n :: ns => evalNode r n && evalAnd r ns

/-- Modelled from the spec: OR over children, short-circuiting. -/
def evalOr (r : Rec) : List FilterNode → Bool
  | [] => false
  | n :: ns => evalNode r n || evalOr r ns

end

/-- Modelled from the spec: `evaluate(record, group)` — a `null`/absent
group passes every record. -/
def evaluateFilter (r : Rec) : Option FilterGroup → Bool
  | none => true
  | some g =>
      match g.combinator with
      | .and => evalAnd r g.conditions
      | .or => evalOr r g.conditions

/-- Modelled from the spec: `applyFilterLogic(records, group)` — the
stable filter over the collection (call site
`src/components/ProjectList.tsx`). -/
def applyFilterLogic (records : List Rec) (g : Option FilterGroup) : List Rec :=
  records.filter (fun r => evaluateFilter r g)

/-! ## Concrete records used by witnesses and counterexamples -/

/-- A donation dated 2024-01-15. -/
def recJan15 : Rec := ⟨[("amount", .num 10), ("donationDate", .str "2024-01-15")], 0⟩

/-- A donation dated 2024-01-31. -/
def recJan31 : Rec := ⟨[("amount", .num 20), ("donationDate", .str "2024-01-31")], 0⟩

/-- A donation dated 2024-02-01. -/
def recFeb01 : Rec := ⟨[("amount", .num 30), ("donationDate", .str "2024-02-01")], 0⟩

/-- A record with amount 100. -/
def recAmt100 : Rec := ⟨[("amount", .num 100), ("donationDate", .str "2024-01-05")], 0⟩

/-- A record with amount 300. -/
def recAmt300 : Rec := ⟨[("amount", .num 300), ("donationDate", .str "2024-01-06")], 0⟩

/-- A record with no `amount` field at all (it reads as `undefined`). -/
def recNoAmt : Rec := ⟨[("donationDate", .str "2024-01-10")], 0⟩

/-- A record whose group field `x` is the number 5. -/
def recX5 : Rec := ⟨[("x", .num 5)], 0⟩

/-- A record whose group field `x` is the number 3. -/
def recX3 : Rec := ⟨[("x", .num 3)], 0⟩

/-- A record whose group field `x` is `null`. -/
def recXNull : Rec := ⟨[("x", .null)], 0⟩

/-- A donation whose date field does not parse as a date. -/
def recBadDate : Rec := ⟨[("amount", .num 7), ("donationDate", .str "not-a-date")], 0⟩

/-! ## Helper definitions for the stated properties -/

/-- The numeric content of a metric value (0 for `NaN` or a string). -/
def jnumOrZero : JVal → ℚ
  | .jnum q => q
  | .jnan => 0
  | .jstr _ => 0

/-- The total of the numeric values of a report. -/
def pointsTotal (ps : List ReportPoint) : ℚ :=
  (ps.map (fun p => jnumOrZero p.value)).sum

/-- The total number of records held by a bucket list. -/
def sumBuckets (bs : List Bucket) : Nat :=
  (bs.map (fun b => b.items.length)).sum

/-- The result list of the pipeline before the final sort (stages 1–4 in
`Object.values` order). -/
def reportPointsUnsorted (ds : DataSource) (base : List Rec) (f : Filters)
    (gb metric : String) (clients tms : List (String × String)) : List ReportPoint :=
  rawPoints gb metric clients tms
    (groupStage gb (dateKeyFor ds) (filterStage (dateKeyFor ds) f base))

/-- Whether a point's display name is a string (the comparator's type
test). -/
def nameIsString (p : ReportPoint) : Bool :=
  match p.name with
  | .str _ => true
  | _ => false

/-! ## Theorems -/

/-- One equality-filter entry, decomposed: constrain only when the value
is truthy and not the `'all'` sentinel. -/
theorem filterEntryOk_iff (r : Rec) (a : String) (b : Value) :
    ((truthy b = false ∨ b = Value.str "all") ∨ getField r a = b) ↔
      (truthy b = true → b ≠ Value.str "all" → getField r a = b) := by
  by_cases h1 : truthy b = true <;> by_cases h2 : b = Value.str "all" <;> simp [h1, h2]

/-- The filter-stage predicate, decomposed into the three constraints it
ANDs (for a nonempty date key). -/
theorem recPasses_iff (dk : String) (hdk : dk ≠ "") (f : Filters) (r : Rec) :
    recPasses dk f r = true ↔
      (f.dateStart ≠ "" →
        jsDateGE (parseDateValue (getField r dk)) (parseDate f.dateStart) = true) ∧
      (f.dateEnd ≠ "" →
        jsDateLE (parseDateValue (getField r dk)) (parseDate f.dateEnd) = true) ∧
      (∀ kv ∈ f.other, truthy kv.2 = true → kv.2 ≠ .str "all" →
        getField r kv.1 = kv.2) := by
  unfold recPasses
  by_cases h1 : f.dateStart = "" <;> by_cases h2 : f.dateEnd = "" <;>
    simp [h1, h2, hdk, List.all_eq_true, filterEntryOk_iff, and_assoc]

/-- C1: a record survives the filter stage iff it is in the base
collection, meets a set date-range start (inclusively, under JS date
comparison), meets a set date-range end, and equals every set non-`'all'`
equality filter entry on that entry's field; unset bounds and `'all'`
entries impose no constraint (so with none set every record survives). -/
theorem reports_filter_stage_iff (ds : DataSource) (base : List Rec)
    (f : Filters) (r : Rec) :
    r ∈ filterStage (dateKeyFor ds) f base ↔
      r ∈ base ∧
      (f.dateStart ≠ "" →
        jsDateGE (parseDateValue (getField r (dateKeyFor ds)))
          (parseDate f.dateStart) = true) ∧
      (f.dateEnd ≠ "" →
        jsDateLE (parseDateValue (getField r (dateKeyFor ds)))
          (parseDate f.dateEnd) = true) ∧
      (∀ kv ∈ f.other, truthy kv.2 = true → kv.2 ≠ .str "all" →
        getField r kv.1 = kv.2) := by
  have hdk : dateKeyFor ds ≠ "" := by cases ds <;> simp [dateKeyFor]
  rw [filterStage, List.mem_filter, recPasses_iff _ hdk]

/-- C4: with an empty `groupBy` the compute function returns the empty
list, whatever the other inputs are. -/
theorem reports_empty_groupBy_yields_empty (ds : DataSource) (base : List Rec)
    (f : Filters) (metric : String) (clients tms : List (String × String)) :
    processedData ds base f "" metric clients tms = [] := by
  simp [processedData, computeReport]

/-- C8: applying the filter engine with a `null` filter group is the
identity on the record collection. -/
theorem applyFilterLogic_null_identity (records : List Rec) :
    applyFilterLogic records none = records := by
  simp [applyFilterLogic, evaluateFilter]

/-- C3 (code evaluated at the failing input): a record whose `amount`
field is missing does not contribute 0 — `0 + 100 + undefined` is `NaN`,
so the whole bucket's `totalAmount` and `avgAmount` are `NaN`. -/
theorem totalAmount_nan_on_missing_amount :
    getField recNoAmt "amount" = .undefined ∧
    metricValue "totalAmount" [recAmt100, recNoAmt] = .jnan ∧
    metricValue "avgAmount" [recAmt100, recNoAmt] = .jnan := by
  refine ⟨by decide, by decide, by decide⟩

/-- C2: grouping by `'month'` derives the bucket key as the zero-padded
`YYYY-MM` rendering of the record's designated date field; records dated
2024-01-15 and 2024-01-31 share bucket `2024-01` and a record dated
2024-02-01 falls in bucket `2024-02`. -/
theorem month_group_key_spec (dk : String) (r : Rec) (d : SimpleDate)
    (h : parseDateValue (getField r dk) = some d) :
    groupKey "month" dk r =
      .str (toString d.year ++ "-" ++ padStart2 (toString d.month)) ∧
    groupKey "month" "donationDate" recJan15 = .str "2024-01" ∧
    groupKey "month" "donationDate" recJan31 = .str "2024-01" ∧
    groupKey "month" "donationDate" recFeb01 = .str "2024-02" ∧
    groupStage "month" "donationDate" [recJan15, recJan31, recFeb01] =
      [⟨"2024-01", .str "2024-01", [recJan15, recJan31]⟩,
       ⟨"2024-02", .str "2024-02", [recFeb01]⟩] := by
  refine ⟨?_, by decide, by decide, by decide, by decide⟩
  simp [groupKey, monthKey, h]

/-- Witness for C2 at the record dated 2024-01-15. -/
theorem month_group_key_spec_witness :
    parseDateValue (getField recJan15 "donationDate") = some ⟨2024, 1, 15⟩ ∧
    groupKey "month" "donationDate" recJan15 =
      .str (toString (2024 : Int) ++ "-" ++ padStart2 (toString (1 : Nat))) := by
  exact ⟨by decide,
    (month_group_key_spec "donationDate" recJan15 ⟨2024, 1, 15⟩ (by decide)).1⟩

/-- C10: a surviving record whose date field does not parse still gets
the non-nullish month key `"NaN-NaN"` (so it is not dropped), and the
label stage renders that key as `"Invalid Date"`; concretely, one
bad-date donation yields the single point `{name: "Invalid Date",
value: 1}`. -/
theorem month_invalid_date_nan_bucket (dk : String) (r : Rec)
    (h : parseDateValue (getField r dk) = none) :
    groupKey "month" dk r = .str "NaN-NaN" ∧
    keyIsNullish (groupKey "month" dk r) = false ∧
    monthLabel "NaN-NaN" = "Invalid Date" ∧
    processedData .donations [recBadDate] noFilters "month" "count" [] [] =
      [⟨.str "Invalid Date", .jnum 1⟩] := by
  refine ⟨?_, ?_, by decide, by decide⟩
  · simp [groupKey, monthKey, h]
  · simp [groupKey, monthKey, h, keyIsNullish]

/-- Witness for C10 at the bad-date donation. -/
theorem month_invalid_date_nan_bucket_witness :
    parseDateValue (getField recBadDate "donationDate") = none ∧
    groupKey "month" "donationDate" recBadDate = .str "NaN-NaN" := by
  exact ⟨by decide,
    (month_invalid_date_nan_bucket "donationDate" recBadDate (by decide)).1⟩

/-- On an all-numeric amount column the running JS sum never leaves the
number type and equals the rational sum. -/
theorem sumAmounts_foldl (items : List Rec) (amts : List Int)
    (h : items.map (fun r => getField r "amount") = amts.map Value.num) :
    ∀ q : ℚ, items.foldl (fun s i => jsAdd s (getField i "amount")) (.jnum q)
      = .jnum (q + (amts.sum : ℚ)) := by
  induction items generalizing amts with
  | nil =>
      intro q
      have hn : amts = [] := by cases amts <;> simp_all
      simp [hn]
  | cons i is ih =>
      intro q
      cases amts with
      | nil => simp at h
      | cons a as =>
          simp only [List.map_cons, List.cons.injEq] at h
          obtain ⟨h1, h2⟩ := h
          rw [List.foldl_cons, h1]
          show is.foldl (fun s i => jsAdd s (getField i "amount"))
            (.jnum (q + (a : ℚ))) = _
          rw [ih as h2 (q + (a : ℚ))]
          congr 1
          rw [List.sum_cons]
          push_cast
          ring

/-- `sumAmounts` on an all-numeric amount column. -/
theorem sumAmounts_eq (items : List Rec) (amts : List Int)
    (h : items.map (fun r => getField r "amount") = amts.map Value.num) :
    sumAmounts items = .jnum ((amts.sum : ℚ)) := by
  have hq := sumAmounts_foldl items amts h 0
  simpa [sumAmounts] using hq

/-- `insertItem` never produces an empty bucket. -/
theorem insertItem_items_ne_nil (k : Value) (r : Rec) (bs : List Bucket)
    (h : ∀ b ∈ bs, b.items ≠ []) : ∀ b ∈ insertItem k r bs, b.items ≠ [] := by
  induction bs with
  | nil =>
      intro b hb
      simp only [insertItem, List.mem_singleton] at hb
      subst hb
      simp
  | cons b0 bs ih =>
      intro b hb
      simp only [insertItem] at hb
      split at hb
      · rcases List.mem_cons.mp hb with rfl | hb
        · simp
        · exact h b (List.mem_cons_of_mem _ hb)
      · rcases List.mem_cons.mp hb with rfl | hb
        · exact h b (List.mem_cons_self _ _)
        · exact ih (fun b' hb' => h b' (List.mem_cons_of_mem _ hb')) b hb

/-- Every bucket the group stage produces is non-empty. -/
theorem groupStage_items_ne_nil (gb dk : String) (rs : List Rec) :
    ∀ b ∈ groupStage gb dk rs, b.items ≠ [] := by
  suffices haux : ∀ (l : List Rec) (acc : List Bucket),
      (∀ b ∈ acc, b.items ≠ []) →
      ∀ b ∈ l.foldl (groupStep gb dk) acc, b.items ≠ [] by
    exact haux rs [] (by simp)
  intro l
  induction l with
  | nil => intro acc hacc b hb; exact hacc b hb
  | cons r l ih =>
      intro acc hacc b hb
      rw [List.foldl_cons] at hb
      refine ih (groupStep gb dk acc r) ?_ b hb
      simp only [groupStep]
      split
      · exact hacc
      · exact insertItem_items_ne_nil _ _ _ hacc

/-- C5: `avgAmount` is the arithmetic mean of the bucket's numeric
`amount` fields (as rationals); it is 0 on an empty bucket (the guard),
`200` on amounts 100 and 300, and every bucket the group stage produces
is in fact non-empty. -/
theorem avgAmount_is_mean (items : List Rec) (amts : List Int)
    (h : items.map (fun r => getField r "amount") = amts.map Value.num) :
    metricValue "avgAmount" items =
      (if items.length = 0 then .jnum 0
       else .jnum ((amts.sum : ℚ) / (items.length : ℚ))) ∧
    metricValue "avgAmount" [recAmt100, recAmt300] = .jnum 200 ∧
    metricValue "avgAmount" ([] : List Rec) = .jnum 0 ∧
    ∀ gb dk rs, ∀ b ∈ groupStage gb dk rs, b.items ≠ [] := by
  refine ⟨?_, ?_, by simp [metricValue], fun gb dk rs => groupStage_items_ne_nil gb dk rs⟩
  · rcases Nat.eq_zero_or_pos items.length with hl | hl
    · have : items = [] := List.length_eq_zero.mp hl
      subst this
      simp [metricValue]
    · rw [if_neg (Nat.pos_iff_ne_zero.mp hl)]
      simp only [metricValue, if_neg (by decide : ¬ "avgAmount" = "count"),
        if_neg (by decide : ¬ "avgAmount" = "totalAmount"), if_pos rfl, if_pos hl]
      rw [sumAmounts_eq items amts h]
      simp [jsDivNat, Nat.pos_iff_ne_zero.mp hl]
  · have h2 : [recAmt100, recAmt300].map (fun r => getField r "amount") =
        [(100 : Int), 300].map Value.num := by decide
    simp only [metricValue, if_neg (by decide : ¬ "avgAmount" = "count"),
      if_neg (by decide : ¬ "avgAmount" = "totalAmount"), if_pos rfl,
      if_pos (by decide : 0 < ([recAmt100, recAmt300] : List Rec).length)]
    rw [sumAmounts_eq _ [(100 : Int), 300] h2]
    simp [jsDivNat]
    norm_num

/-- Witness for C5 on the two-record bucket with amounts 100 and 300. -/
theorem avgAmount_is_mean_witness :
    metricValue "avgAmount" [recAmt100, recAmt300] =
      (if ([recAmt100, recAmt300] : List Rec).length = 0 then .jnum 0
       else .jnum ((([100, 300] : List Int).sum : ℚ) /
         ((([recAmt100, recAmt300] : List Rec).length : ℚ)))) := by
  have hmap : [recAmt100, recAmt300].map (fun r => getField r "amount") =
      [(100 : Int), 300].map Value.num := by decide
  exact (avgAmount_is_mean [recAmt100, recAmt300] [100, 300] hmap).1

/-- Membership in a bucket after `insertItem`: the member was already in
a bucket, or it is the inserted record. -/
theorem insertItem_mem (k : Value) (r : Rec) (bs : List Bucket)
    (b : Bucket) (hb : b ∈ insertItem k r bs) (x : Rec) (hx : x ∈ b.items) :
    (∃ b' ∈ bs, x ∈ b'.items) ∨ x = r := by
  induction bs with
  | nil =>
      simp only [insertItem, List.mem_singleton] at hb
      subst hb
      simp only [List.mem_singleton] at hx
      exact Or.inr hx
  | cons b0 bs ih =>
      simp only [insertItem] at hb
      split at hb
      · rcases List.mem_cons.mp hb with rfl | hb
        · rcases List.mem_append.mp hx with hx | hx
          · exact Or.inl ⟨b0, List.mem_cons_self _ _, hx⟩
          · simp only [List.mem_singleton] at hx
            exact Or.inr hx
        · exact Or.inl ⟨b, List.mem_cons_of_mem _ hb, hx⟩
      · rcases List.mem_cons.mp hb with rfl | hb
        · exact Or.inl ⟨b, List.mem_cons_self _ _, hx⟩
        · rcases ih hb with ⟨b', hb', hx'⟩ | hx'
          · exact Or.inl ⟨b', List.mem_cons_of_mem _ hb', hx'⟩
          · exact Or.inr hx'

/-- Every record held by a bucket of the group stage has a non-nullish
group key. -/
theorem groupStage_member_key_valid (gb dk : String) (rs : List Rec) :
    ∀ b ∈ groupStage gb dk rs, ∀ x ∈ b.items,
      keyIsNullish (groupKey gb dk x) = false := by
  suffices haux : ∀ (l : List Rec) (acc : List Bucket),
      (∀ b ∈ acc, ∀ x ∈ b.items, keyIsNullish (groupKey gb dk x) = false) →
      ∀ b ∈ l.foldl (groupStep gb dk) acc, ∀ x ∈ b.items,
        keyIsNullish (groupKey gb dk x) = false by
    exact haux rs [] (by simp)
  intro l
  induction l with
  | nil => intro acc hacc b hb; exact hacc b hb
  | cons r l ih =>
      intro acc hacc b hb
      rw [List.foldl_cons] at hb
      refine ih (groupStep gb dk acc r) ?_ b hb
      simp only [groupStep]
      split
      · exact hacc
      · rename_i hkey
        intro b' hb' x hx
        rcases insertItem_mem _ _ _ b' hb' x hx with ⟨b'', hb'', hx''⟩ | rfl
        · exact hacc b'' hb'' x hx''
        · exact Bool.not_eq_true _ ▸ hkey

/-- C6: a record whose group key is `null`/`undefined` lands in no
bucket, and no catch-all bucket exists for such records — every bucket
is non-empty and holds only records with non-nullish keys. -/
theorem null_key_records_dropped (gb dk : String) (rs : List Rec) (r : Rec)
    (hk : keyIsNullish (groupKey gb dk r) = true) :
    (∀ b ∈ groupStage gb dk rs, r ∉ b.items) ∧
    (∀ b ∈ groupStage gb dk rs, b.items ≠ [] ∧
      ∀ x ∈ b.items, keyIsNullish (groupKey gb dk x) = false) := by
  constructor
  · intro b hb hmem
    have := groupStage_member_key_valid gb dk rs b hb r hmem
    rw [hk] at this
    exact Bool.true_eq_false ▸ this
  · intro b hb
    exact ⟨groupStage_items_ne_nil gb dk rs b hb,
      groupStage_member_key_valid gb dk rs b hb⟩

/-- Witness for C6: the record whose `x` field is `null` is not in the
one bucket a concrete grouping by `x` produces. -/
theorem null_key_records_dropped_witness :
    recXNull ∉ (⟨"5", .num 5, [recX5]⟩ : Bucket).items :=
  (null_key_records_dropped "x" "donationDate" [recX5, recXNull] recXNull
    (by decide)).1 ⟨"5", .num 5, [recX5]⟩ (by decide)

/-- `insertItem` grows the total record count of the buckets by one. -/
theorem sumBuckets_insertItem (k : Value) (r : Rec) (bs : List Bucket) :
    sumBuckets (insertItem k r bs) = sumBuckets bs + 1 := by
  induction bs with
  | nil => simp [insertItem, sumBuckets]
  | cons b0 bs ih =>
      simp only [insertItem]
      split
      · simp [sumBuckets]
        omega
      · simp only [sumBuckets, List.map_cons, List.sum_cons] at ih ⊢
        omega

/-- The group stage conserves records: the bucket totals sum to the
number of surviving records with a non-nullish key. -/
theorem sumBuckets_groupStage (gb dk : String) (rs : List Rec) :
    sumBuckets (groupStage gb dk rs) =
      (rs.filter (fun r => !keyIsNullish (groupKey gb dk r))).length := by
  suffices haux : ∀ (l : List Rec) (acc : List Bucket),
      sumBuckets (l.foldl (groupStep gb dk) acc) =
        sumBuckets acc + (l.filter (fun r => !keyIsNullish (groupKey gb dk r))).length by
    simpa [groupStage, sumBuckets] using haux rs []
  intro l
  induction l with
  | nil => intro acc; simp
  | cons r l ih =>
      intro acc
      rw [List.foldl_cons, ih]
      by_cases hk : keyIsNullish (groupKey gb dk r) = true
      · simp [groupStep, hk, List.filter_cons]
      · simp only [Bool.not_eq_true] at hk
        rw [List.filter_cons]
        rw [show groupStep gb dk acc r = insertItem (groupKey gb dk r) r acc from by
          simp [groupStep, hk]]
        rw [sumBuckets_insertItem]
        simp [hk]
        omega

/-- Inserting into a sorted position is a permutation of consing. -/
theorem insertBefore_perm {α : Type} (lt : α → α → Bool) (a : α) (l : List α) :
    List.Perm (insertBefore lt a l) (a :: l) := by
  induction l with
  | nil => simp [insertBefore]
  | cons b l ih =>
      simp only [insertBefore]
      split
      · exact List.Perm.refl _
      · exact (ih.cons b).trans (List.Perm.swap a b l)

/-- The stable sort is a permutation of its input. -/
theorem stableSortBy_perm {α : Type} (lt : α → α → Bool) (l : List α) :
    List.Perm (stableSortBy lt l) l := by
  suffices haux : ∀ (l acc : List α),
      List.Perm (l.foldl (fun acc a => insertBefore lt a acc) acc) (acc ++ l) by
    simpa [stableSortBy] using haux l []
  intro l
  induction l with
  | nil => intro acc; simp
  | cons a l ih =>
      intro acc
      rw [List.foldl_cons]
      refine (ih (insertBefore lt a acc)).trans ?_
      refine (List.Perm.append_right l (insertBefore_perm lt a acc)).trans ?_
      simpa using (List.perm_middle).symm

/-- `Object.values` order is a permutation of insertion order. -/
theorem esObjectOrder_perm (bs : List Bucket) : List.Perm (esObjectOrder bs) bs := by
  unfold esObjectOrder
  refine (List.Perm.append_right _ (stableSortBy_perm _ _)).trans ?_
  have hco : bs.filter (fun b => (integerIndexVal b.keyStr).isNone) =
      bs.filter (fun b => !(integerIndexVal b.keyStr).isSome) := by
    apply List.filter_congr
    intro b _
    cases integerIndexVal b.keyStr <;> rfl
  rw [hco]
  exact List.filter_append_perm _ bs

/-- `pointsTotal` is invariant under permutation. -/
theorem pointsTotal_perm (ps qs : List ReportPoint) (h : List.Perm ps qs) :
    pointsTotal ps = pointsTotal qs :=
  List.Perm.sum_eq (h.map _)

/-- `count`, and any metric outside the recognized four, reduces a bucket
to its size. -/
theorem metricValue_count (metric : String) (items : List Rec)
    (hm : metric = "count" ∨
      (¬metric = "totalAmount" ∧ ¬metric = "avgAmount" ∧ ¬metric = "taskCount")) :
    metricValue metric items = .jnum (items.length : ℚ) := by
  rcases hm with rfl | ⟨h1, h2, h3⟩
  · simp [metricValue]
  · by_cases hc : metric = "count" <;> simp [metricValue, hc, h1, h2, h3]

/-- With a count-like metric the report total is the bucket total. -/
theorem pointsTotal_rawPoints (gb metric : String)
    (clients tms : List (String × String)) (bs : List Bucket)
    (hm : metric = "count" ∨
      (¬metric = "totalAmount" ∧ ¬metric = "avgAmount" ∧ ¬metric = "taskCount")) :
    pointsTotal (rawPoints gb metric clients tms bs) = (sumBuckets bs : ℚ) := by
  unfold rawPoints pointsTotal
  rw [List.map_map]
  have hmap : (esObjectOrder bs).map
        ((fun p : ReportPoint => jnumOrZero p.value) ∘
          (fun b => (⟨labelName gb clients tms b.name, metricValue metric b.items⟩ : ReportPoint))) =
      (esObjectOrder bs).map (fun b => (b.items.length : ℚ)) := by
    apply List.map_congr_left
    intro b _
    simp [Function.comp, metricValue_count metric b.items hm, jnumOrZero]
  rw [hmap, sumBuckets, Nat.cast_list_sum, List.map_map]
  exact List.Perm.sum_eq ((esObjectOrder_perm bs).map _)

/-- C9: with the `count` metric (or any unrecognized metric, which
defaults to `count`), the report values sum to the number of filtered
records with a non-nullish group key, and every returned value is a
whole number of at least 1. -/
theorem count_metric_conservation (ds : DataSource) (base : List Rec)
    (f : Filters) (gb metric : String) (clients tms : List (String × String))
    (hgb : gb ≠ "")
    (hm : metric = "count" ∨
      (¬metric = "totalAmount" ∧ ¬metric = "avgAmount" ∧ ¬metric = "taskCount")) :
    pointsTotal (processedData ds base f gb metric clients tms) =
      (((filterStage (dateKeyFor ds) f base).filter
        (fun r => !keyIsNullish (groupKey gb (dateKeyFor ds) r))).length : ℚ) ∧
    ∀ p ∈ processedData ds base f gb metric clients tms,
      ∃ n : Nat, p.value = .jnum (n : ℚ) ∧ 1 ≤ n := by
  constructor
  · unfold processedData computeReport
    rw [if_neg hgb]
    rw [pointsTotal_perm _ _ (stableSortBy_perm pointLt _)]
    rw [pointsTotal_rawPoints gb metric clients tms _ hm]
    rw [sumBuckets_groupStage]
  · intro p hp
    unfold processedData computeReport at hp
    rw [if_neg hgb] at hp
    have hp2 := (stableSortBy_perm pointLt _).mem_iff.mp hp
    unfold rawPoints at hp2
    rcases List.mem_map.mp hp2 with ⟨b, hb, rfl⟩
    have hbmem : b ∈ groupStage gb (dateKeyFor ds)
        (filterStage (dateKeyFor ds) f base) := (esObjectOrder_perm _).subset hb
    refine ⟨b.items.length, ?_, ?_⟩
    · simpa using metricValue_count metric b.items hm
    · exact List.length_pos.mpr
        (groupStage_items_ne_nil _ _ _ b hbmem)

/-- Witness for C9 on a concrete collection: two valid keys, one `null`
key. -/
theorem count_metric_conservation_witness :
    pointsTotal (processedData .donations [recX5, recX3, recXNull] noFilters
        "x" "count" [] []) =
      (((filterStage (dateKeyFor .donations) noFilters [recX5, recX3, recXNull]).filter
        (fun r => !keyIsNullish (groupKey "x" (dateKeyFor .donations) r))).length : ℚ) ∧
    ∀ p ∈ processedData .donations [recX5, recX3, recXNull] noFilters "x" "count" [] [],
      ∃ n : Nat, p.value = .jnum (n : ℚ) ∧ 1 ≤ n :=
  count_metric_conservation .donations [recX5, recX3, recXNull] noFilters
    "x" "count" [] [] (by decide) (Or.inl rfl)

/-- Code-point comparison is asymmetric. -/
theorem cmpCharList_asymm (as bs : List Char) (h : cmpCharList as bs = .lt) :
    cmpCharList bs as = .gt := by
  induction as generalizing bs with
  | nil =>
      cases bs with
      | nil => simp [cmpCharList] at h
      | cons b bs => simp [cmpCharList]
  | cons a as ih =>
      cases bs with
      | nil => simp [cmpCharList] at h
      | cons b bs =>
          simp only [cmpCharList] at h ⊢
          by_cases h1 : a.toNat < b.toNat
          · rw [if_neg (by omega), if_pos h1]
          · by_cases h2 : b.toNat < a.toNat
            · rw [if_neg h1, if_pos h2] at h
              exact Ordering.noConfusion h
            · rw [if_neg h1, if_neg h2] at h
              rw [if_neg h2, if_neg h1]
              exact ih bs h

/-- The point comparator is asymmetric. -/
theorem pointLt_asymm (a b : ReportPoint) (h : pointLt a b = true) :
    pointLt b a = false := by
  rcases a with ⟨an, av⟩
  rcases b with ⟨bn, bv⟩
  cases an <;> cases bn <;> simp only [pointLt] at h ⊢ <;>
    try exact Bool.noConfusion h
  rename_i s t
  have hlt : strCmp s t = Ordering.lt := by
    cases hc : strCmp s t
    · rfl
    · rw [hc] at h; exact absurd h (by decide)
    · rw [hc] at h; exact absurd h (by decide)
  rw [show strCmp t s = Ordering.gt from cmpCharList_asymm _ _ hlt]
  rfl

/-- The head of an insertion is the inserted element or the old head. -/
theorem insertBefore_head? {α : Type} (lt : α → α → Bool) (x : α) (l : List α) :
    (insertBefore lt x l).head? = some x ∨ (insertBefore lt x l).head? = l.head? := by
  cases l with
  | nil => simp [insertBefore]
  | cons b l =>
      simp only [insertBefore]
      split
      · exact Or.inl rfl
      · exact Or.inr rfl

/-- Inserting into a list with no out-of-order adjacent pair keeps that
shape, given an asymmetric comparison. -/
theorem chain'_insertBefore {α : Type} (lt : α → α → Bool)
    (hasymm : ∀ a b, lt a b = true → lt b a = false) (x : α) (l : List α)
    (hl : l.Chain' (fun a b => lt b a = false)) :
    (insertBefore lt x l).Chain' (fun a b => lt b a = false) := by
  induction l with
  | nil => simp [insertBefore]
  | cons b l ih =>
      simp only [insertBefore]
      split
      · rename_i hxb
        exact List.Chain'.cons (hasymm _ _ hxb) hl
      · rename_i hxb
        rw [List.chain'_cons'] at hl
        refine List.chain'_cons'.mpr ⟨?_, ih hl.2⟩
        intro y hy
        rcases insertBefore_head? lt x l with hh | hh
        · rw [hh] at hy
          simp only [Option.mem_def, Option.some.injEq] at hy
          subst hy
          exact Bool.not_eq_true _ ▸ hxb
        · rw [hh] at hy
          exact hl.1 y hy

/-- The stable sort never leaves an adjacent out-of-order pair, given an
asymmetric comparison. -/
theorem chain'_stableSortBy {α : Type} (lt : α → α → Bool)
    (hasymm : ∀ a b, lt a b = true → lt b a = false) (l : List α) :
    (stableSortBy lt l).Chain' (fun a b => lt b a = false) := by
  suffices haux : ∀ (l acc : List α), acc.Chain' (fun a b => lt b a = false) →
      (l.foldl (fun acc a => insertBefore lt a acc) acc).Chain'
        (fun a b => lt b a = false) by
    exact haux l [] (by simp)
  intro l
  induction l with
  | nil => intro acc hacc; exact hacc
  | cons a l ih =>
      intro acc hacc
      rw [List.foldl_cons]
      exact ih _ (chain'_insertBefore lt hasymm a acc hacc)

/-- Inserting an element the comparison ties with everything appends it. -/
theorem insertBefore_all_false {α : Type} (lt : α → α → Bool) (x : α)
    (l : List α) (h : ∀ b ∈ l, lt x b = false) :
    insertBefore lt x l = l ++ [x] := by
  induction l with
  | nil => simp [insertBefore]
  | cons b l ih =>
      simp only [insertBefore]
      rw [if_neg (by simp [h b (List.mem_cons_self _ _)])]
      rw [ih (fun b' hb' => h b' (List.mem_cons_of_mem _ hb'))]
      simp

/-- When the comparison ties every pair, the stable sort is the
identity. -/
theorem stableSortBy_all_false {α : Type} (lt : α → α → Bool) (l : List α)
    (h : ∀ a ∈ l, ∀ b ∈ l, lt a b = false) : stableSortBy lt l = l := by
  suffices haux : ∀ (l acc : List α),
      (∀ a ∈ l, ∀ b ∈ acc, lt a b = false) →
      (∀ a ∈ l, ∀ b ∈ l, lt a b = false) →
      l.foldl (fun acc a => insertBefore lt a acc) acc = acc ++ l by
    simpa [stableSortBy] using haux l [] (by simp) h
  intro l
  induction l with
  | nil => intro acc _ _; simp
  | cons a l ih =>
      intro acc hacross hwithin
      rw [List.foldl_cons]
      rw [insertBefore_all_false lt a acc (hacross a (List.mem_cons_self _ _))]
      have h1 : ∀ x ∈ l, ∀ b ∈ acc ++ [a], lt x b = false := by
        intro x hx b hb
        rcases List.mem_append.mp hb with hb | hb
        · exact hacross x (List.mem_cons_of_mem _ hx) b hb
        · simp only [List.mem_singleton] at hb
          rw [hb]
          exact hwithin x (List.mem_cons_of_mem _ hx) a (List.mem_cons_self _ _)
      have h2 : ∀ x ∈ l, ∀ y ∈ l, lt x y = false := fun x hx y hy =>
        hwithin x (List.mem_cons_of_mem _ hx) y (List.mem_cons_of_mem _ hy)
      rw [ih (acc ++ [a]) h1 h2]
      simp

/-- C7 refuted as stated: grouping two records whose `x` fields are the
numbers 5 and 3 (encountered in that order — the group stage's buckets
are keyed `"5"` then `"3"`) does NOT keep first-encounter order in the
output: the property keys are integer-index-like, so `Object.values`
yields them in ascending numeric order and the sort (a tie on non-string
names) leaves that order, giving the point for 3 before the point
for 5. -/
theorem report_order_counterexample :
    groupStage "x" "donationDate" [recX5, recX3] =
      [⟨"5", .num 5, [recX5]⟩, ⟨"3", .num 3, [recX3]⟩] ∧
    processedData .donations [recX5, recX3] noFilters "x" "count" [] [] =
      [⟨.num 3, .jnum 1⟩, ⟨.num 5, .jnum 1⟩] := by
  constructor
  · decide
  · decide

/-- C7 amended: the final list never has an adjacent pair that the
comparator orders the other way (so adjacent string names are in
ascending modelled-locale order); and when no name is a string the sort
is the identity on the object-iteration order (integer-index-like bucket
keys ascending, then first-encounter order), which is therefore the
output order. -/
theorem report_order_spec (ds : DataSource) (base : List Rec) (f : Filters)
    (gb metric : String) (clients tms : List (String × String)) :
    (processedData ds base f gb metric clients tms).Chain'
      (fun p q => pointLt q p = false) ∧
    (gb ≠ "" →
      (∀ p ∈ reportPointsUnsorted ds base f gb metric clients tms,
        nameIsString p = false) →
      processedData ds base f gb metric clients tms =
        reportPointsUnsorted ds base f gb metric clients tms) := by
  constructor
  · unfold processedData computeReport
    split
    · simp
    · exact chain'_stableSortBy pointLt pointLt_asymm _
  · intro hgb hns
    unfold processedData computeReport
    rw [if_neg hgb]
    unfold reportPointsUnsorted at hns ⊢
    apply stableSortBy_all_false
    intro a ha b hb
    have hna := hns a ha
    rcases a with ⟨an, av⟩
    cases an <;> simp [nameIsString] at hna ⊢ <;> simp [pointLt]

/-- Witness for the amended C7 on the all-numeric-names report. -/
theorem report_order_spec_witness :
    processedData .donations [recX5, recX3] noFilters "x" "count" [] [] =
      reportPointsUnsorted .donations [recX5, recX3] noFilters "x" "count" [] [] :=
  (report_order_spec .donations [recX5, recX3] noFilters "x" "count" [] []).2
    (by decide) (by decide)
